import Mathlib

/-
Verification of the Iron Lady masterclass analysis pipeline.

The repository contains two parallel implementations of the same pipeline:
`masterclass_analyzer.py` (a CLI script) and `dashboard.py` (the class
embedded in the dashboard).  The definitions below are shallow embeddings of
the pipeline functions of those two files; where the two copies differ, both
variants are embedded and the difference is proved.  Machine floats are
modelled as exact rationals; Python `round(x, 1)` (round-half-to-even) is
modelled exactly by `round1`.
-/

/-- Round a rational to the nearest integer, ties to even (the rounding used
by Python's `round`). -/
def roundTiesEven (y : ℚ) : ℤ :=
  if 1/2 < y - (Int.floor y : ℚ) then Int.floor y + 1
  else if y - (Int.floor y : ℚ) < 1/2 then Int.floor y
  else if Int.floor y % 2 = 0 then Int.floor y else Int.floor y + 1

/-- Python `round(x, 1)`: round to one decimal digit, ties to even
(banker's rounding), modelled exactly on rationals. -/
def round1 (x : ℚ) : ℚ := (roundTiesEven (10 * x) : ℚ) / 10

/-- The chosen integer never lies below the floor. -/
theorem floor_le_roundTiesEven (y : ℚ) : Int.floor y ≤ roundTiesEven y := by
  unfold roundTiesEven
  split_ifs <;> omega

/-- The chosen integer never exceeds the floor plus one. -/
theorem roundTiesEven_le_floor_add_one (y : ℚ) : roundTiesEven y ≤ Int.floor y + 1 := by
  unfold roundTiesEven
  split_ifs <;> omega

/-- Rounding stays below any even integer bound the input respects; in
particular below any bound of the form `10 * c`. -/
theorem roundTiesEven_le_of_le {y : ℚ} {c : ℤ} (h : y ≤ ((10 * c : ℤ) : ℚ)) :
    roundTiesEven y ≤ 10 * c := by
  have hfle : Int.floor y ≤ 10 * c := by
    calc Int.floor y ≤ Int.floor ((10 * c : ℤ) : ℚ) := Int.floor_le_floor h
      _ = 10 * c := Int.floor_intCast _
  unfold roundTiesEven
  split_ifs with h1 h2 h3
  · rcases lt_or_eq_of_le hfle with hlt | heq
    · omega
    · exfalso
      rw [heq] at h1
      linarith
  · omega
  · omega
  · rcases lt_or_eq_of_le hfle with hlt | heq
    · omega
    · exfalso; omega

/-- Rounding stays below any integer bound the input respects. -/
theorem round1_le_intCast {x : ℚ} {c : ℤ} (h : x ≤ (c : ℚ)) : round1 x ≤ (c : ℚ) := by
  unfold round1
  have hb : roundTiesEven (10 * x) ≤ 10 * c := by
    apply roundTiesEven_le_of_le
    push_cast
    linarith
  rw [div_le_iff₀ (by norm_num : (0:ℚ) < 10)]
  calc (roundTiesEven (10 * x) : ℚ) ≤ ((10 * c : ℤ) : ℚ) := by exact_mod_cast hb
    _ = (c : ℚ) * 10 := by push_cast; ring

/-- Rounding stays above any integer bound the input respects. -/
theorem round1_intCast_le {x : ℚ} {c : ℤ} (h : (c : ℚ) ≤ x) : (c : ℚ) ≤ round1 x := by
  have hc : (10 * c : ℤ) ≤ Int.floor (10 * x) := by
    apply Int.le_floor.mpr
    push_cast
    linarith
  have hfr : (10 * c : ℤ) ≤ roundTiesEven (10 * x) :=
    le_trans hc (floor_le_roundTiesEven _)
  unfold round1
  rw [le_div_iff₀ (by norm_num : (0:ℚ) < 10)]
  calc (c : ℚ) * 10 = ((10 * c : ℤ) : ℚ) := by push_cast; ring
    _ ≤ (roundTiesEven (10 * x) : ℚ) := by exact_mod_cast hfr

/-- Rounding an integer value is the identity. -/
theorem round1_intCast (k : ℤ) : round1 (k : ℚ) = (k : ℚ) := by
  have h1 : round1 (k : ℚ) ≤ (k : ℚ) := round1_le_intCast le_rfl
  have h2 : (k : ℚ) ≤ round1 (k : ℚ) := round1_intCast_le le_rfl
  linarith

/-- Rounding a natural-number value is the identity. -/
theorem round1_natCast (n : ℕ) : round1 (n : ℚ) = (n : ℚ) := by
  have := round1_intCast (n : ℤ)
  push_cast at this
  exact this

/-- Adding an integer commutes with decimal rounding. -/
theorem round1_add_intCast (x : ℚ) (k : ℤ) : round1 (x + (k : ℚ)) = round1 x + (k : ℚ) := by
  unfold round1
  have hstep : roundTiesEven (10 * (x + (k : ℚ))) = roundTiesEven (10 * x) + 10 * k := by
    unfold roundTiesEven
    have harg : 10 * (x + (k : ℚ)) = 10 * x + ((10 * k : ℤ) : ℚ) := by push_cast; ring
    rw [harg, Int.floor_add_int]
    have hr : 10 * x + ((10 * k : ℤ) : ℚ) - ((Int.floor (10 * x) + 10 * k : ℤ) : ℚ)
        = 10 * x - ((Int.floor (10 * x) : ℤ) : ℚ) := by push_cast; ring
    rw [hr]
    have hpar : (Int.floor (10 * x) + 10 * k) % 2 = Int.floor (10 * x) % 2 := by omega
    rw [hpar]
    split_ifs <;> omega
  rw [hstep]
  push_cast
  ring

/-- Adding a natural number commutes with decimal rounding. -/
theorem round1_add_natCast (x : ℚ) (n : ℕ) : round1 (x + (n : ℚ)) = round1 x + (n : ℚ) := by
  have := round1_add_intCast x (n : ℤ)
  push_cast at this
  exact this

/-- Category tiers, from `calculate_engagement_scores` (dashboard.py:337-342 and
masterclass_analyzer.py:465-470): `total_score >= 70` is Hot, `>= 40` Warm,
otherwise Cold. -/
def categorize (t : ℚ) : String :=
  if 70 ≤ t then "Hot"
  else if 40 ≤ t then "Warm"
  else "Cold"

/-- A parsed chat message, as produced by `load_zoom_chat`: the fields the
scorer reads are the sender and the question flag (text contains a question
mark). -/
structure ChatMessage where
  sender : String
  message : String
  is_question : Bool
deriving DecidableEq

/-- A participant row as seen by the scorer and the loaders: normalized
email, display name and numeric duration in minutes (`duration_mins`).
Further CRM passthrough columns are copied verbatim by every stage and are
not read by any computation verified here; `name` stands for the generic
"all other fields take the first occurring value" payload of the dedup. -/
structure AttRow where
  email : String
  name : String
  duration : ℚ
deriving DecidableEq

/-- Python `str.lower()` on the underlying character list (Lean's
`String.toLower` is extensionally the same; this formulation keeps the
function kernel-computable). -/
def toLowerStr (s : String) : String := ⟨s.data.map Char.toLower⟩

/-- Python `str.strip()`: drop leading and trailing whitespace. -/
def stripStr (s : String) : String :=
  ⟨((s.data.dropWhile Char.isWhitespace).reverse.dropWhile Char.isWhitespace).reverse⟩

/-- Email normalization used throughout both files:
`str(email).strip().lower()`. -/
def normEmail (s : String) : String := toLowerStr (stripStr s)

/-- Substring test on character lists (Python's `in` operator on `str`). -/
def isInfixB (p : List Char) : List Char → Bool
  | [] => p.isEmpty
  | c :: rest => p.isPrefixOf (c :: rest) || isInfixB p rest

/-- First whitespace-separated token of the lowercased name
(`str(name).lower().split()[0]` in dashboard.py:314-316); `none` when the
split yields no parts. -/
def firstNameOf (name : String) : Option String :=
  ((((toLowerStr name).data.splitOnP Char.isWhitespace).filter
    (fun s => !s.isEmpty)).head?).map (fun l => ⟨l⟩)

/-- Chat messages attributed to a participant: sender's lowercased name
contains the participant's first name token as a substring
(dashboard.py:317-319). An empty name matches nothing (guard `and name`
at dashboard.py:312). -/
def participantMsgs (chat : List ChatMessage) (name : String) : List ChatMessage :=
  match firstNameOf name with
  | none => []
  | some fn => chat.filter (fun c => isInfixB fn.data (toLowerStr c.sender).data)

/-- One scored participant record, as appended by
`calculate_engagement_scores` (dashboard.py:344-358). CRM passthrough
fields (rm_name, profile, experience) are copied verbatim into the record
and omitted here, since no verified claim mentions them. -/
structure EngagementScore where
  email : String
  name : String
  duration_mins : ℚ
  attendance_score : ℚ
  chat_score : ℚ
  question_score : ℚ
  end_score : ℚ
  total_score : ℚ
  category : String
deriving DecidableEq

/-- The per-row body of `calculate_engagement_scores`
(dashboard.py:293-358; masterclass_analyzer.py:431-490 computes the same
formulas): attendance `min(duration/D*40, 40)`, chat `min(messages*5, 30)`,
questions `min(questions*10, 20)`, stayed-to-end `10` when
`duration ≥ 0.8*D`; the stored fields are rounded to one decimal, the
category is computed from the unrounded total. The chat-message attribution
differs between the files — the dashboard matches the first-name token
(embedded in `participantMsgs`), the analyzer script substring-matches the
full name — but every claim below quantifies over arbitrary chat lists, so
message and question counts are arbitrary in all theorems. Faithful to both
files only for `D ≠ 0`: see `scoreTable` and `analyzerAttendance` for their
different `D = 0` behaviours. -/
def scoreParticipant (D : ℚ) (chat : List ChatMessage) (r : AttRow) : EngagementScore :=
  let attendance : ℚ := min (r.duration / D * 40) 40
  let msgs := participantMsgs chat r.name
  let chatScore : ℕ := min (msgs.length * 5) 30
  let questionScore : ℕ := min ((msgs.filter (fun c => c.is_question)).length * 10) 20
  let endScore : ℕ := if 0.8 * D ≤ r.duration then 10 else 0
  let total : ℚ := attendance + (chatScore : ℚ) + (questionScore : ℚ) + (endScore : ℚ)
  { email := r.email
    name := r.name
    duration_mins := round1 r.duration
    attendance_score := round1 attendance
    chat_score := round1 (chatScore : ℚ)
    question_score := round1 (questionScore : ℚ)
    end_score := round1 (endScore : ℚ)
    total_score := round1 total
    category := categorize total }

/-- `calculate_engagement_scores` over the whole participant table, as the
dashboard runs it. Neither implementation validates `D`; the dashboard
coerces `duration = float(duration)` (dashboard.py:299-302), so its Python
float division raises an unhandled `ZeroDivisionError` the first time a row
is scored with `D = 0` — modelled by `none`. With no rows the loop body
never runs, so even `D = 0` succeeds with an empty result. The analyzer
script performs the same computation for every `D ≠ 0` but does not raise
at `D = 0`: its numpy float64 division only warns — see
`analyzerAttendance`. -/
def scoreTable (D : ℚ) (chat : List ChatMessage) : List AttRow → Option (List EngagementScore)
  | [] => some []
  | r :: rest =>
    if D = 0 then none
    else
      match scoreTable D chat rest with
      | none => none
      | some tl => some (scoreParticipant D chat r :: tl)

/-- Attendance field of a scored record, unfolded. -/
theorem scoreParticipant_attendance (D : ℚ) (chat : List ChatMessage) (r : AttRow) :
    (scoreParticipant D chat r).attendance_score = round1 (min (r.duration / D * 40) 40) := rfl

/-- Chat field of a scored record, unfolded. -/
theorem scoreParticipant_chat (D : ℚ) (chat : List ChatMessage) (r : AttRow) :
    (scoreParticipant D chat r).chat_score =
      round1 ((min ((participantMsgs chat r.name).length * 5) 30 : ℕ) : ℚ) := rfl

/-- Question field of a scored record, unfolded. -/
theorem scoreParticipant_question (D : ℚ) (chat : List ChatMessage) (r : AttRow) :
    (scoreParticipant D chat r).question_score =
      round1 ((min (((participantMsgs chat r.name).filter (fun c => c.is_question)).length * 10)
        20 : ℕ) : ℚ) := rfl

/-- Stayed-to-end field of a scored record, unfolded. -/
theorem scoreParticipant_end (D : ℚ) (chat : List ChatMessage) (r : AttRow) :
    (scoreParticipant D chat r).end_score =
      round1 (((if 0.8 * D ≤ r.duration then 10 else 0 : ℕ) : ℚ)) := rfl

/-- Total field of a scored record, unfolded. -/
theorem scoreParticipant_total (D : ℚ) (chat : List ChatMessage) (r : AttRow) :
    (scoreParticipant D chat r).total_score =
      round1 (min (r.duration / D * 40) 40
        + ((min ((participantMsgs chat r.name).length * 5) 30 : ℕ) : ℚ)
        + ((min (((participantMsgs chat r.name).filter (fun c => c.is_question)).length * 10)
            20 : ℕ) : ℚ)
        + ((if 0.8 * D ≤ r.duration then 10 else 0 : ℕ) : ℚ)) := rfl

/-- Category field of a scored record, unfolded: computed from the unrounded total. -/
theorem scoreParticipant_category (D : ℚ) (chat : List ChatMessage) (r : AttRow) :
    (scoreParticipant D chat r).category =
      categorize (min (r.duration / D * 40) 40
        + ((min ((participantMsgs chat r.name).length * 5) 30 : ℕ) : ℚ)
        + ((min (((participantMsgs chat r.name).filter (fun c => c.is_question)).length * 10)
            20 : ℕ) : ℚ)
        + ((if 0.8 * D ≤ r.duration then 10 else 0 : ℕ) : ℚ)) := rfl

/-- With no chat data a participant matches no messages. -/
theorem participantMsgs_nil (name : String) : participantMsgs [] name = [] := by
  unfold participantMsgs
  cases firstNameOf name <;> simp

/-- Claim C1: for every participant row and positive session duration `D`,
the engagement scorer's component scores respect their caps (attendance is
at most 40, chat at most 30, questions at most 20, stayed-to-end is 0 or 10)
no matter how extreme duration, message count or question count are; chat
and question components are never negative; with nonnegative duration the
attendance component is nonnegative too; and the stored total equals the sum
of the four stored components and lies in `[0, 100]`. -/
theorem claim1_score_bounds (D : ℚ) (chat : List ChatMessage) (r : AttRow) (hD : 0 < D) :
    (scoreParticipant D chat r).attendance_score ≤ 40 ∧
    (scoreParticipant D chat r).chat_score ≤ 30 ∧
    (scoreParticipant D chat r).question_score ≤ 20 ∧
    ((scoreParticipant D chat r).end_score = 0 ∨ (scoreParticipant D chat r).end_score = 10) ∧
    0 ≤ (scoreParticipant D chat r).chat_score ∧
    0 ≤ (scoreParticipant D chat r).question_score ∧
    (scoreParticipant D chat r).total_score
      = (scoreParticipant D chat r).attendance_score + (scoreParticipant D chat r).chat_score
        + (scoreParticipant D chat r).question_score + (scoreParticipant D chat r).end_score ∧
    (0 ≤ r.duration →
      0 ≤ (scoreParticipant D chat r).attendance_score ∧
      0 ≤ (scoreParticipant D chat r).total_score ∧
      (scoreParticipant D chat r).total_score ≤ 100) := by
  rw [scoreParticipant_attendance, scoreParticipant_chat, scoreParticipant_question,
    scoreParticipant_end, scoreParticipant_total]
  set a : ℚ := min (r.duration / D * 40) 40 with ha
  set cN : ℕ := min ((participantMsgs chat r.name).length * 5) 30 with hc
  set qN : ℕ := min (((participantMsgs chat r.name).filter (fun c => c.is_question)).length * 10)
    20 with hq
  set eN : ℕ := if 0.8 * D ≤ r.duration then 10 else 0 with he
  have hcle : cN ≤ 30 := min_le_right _ _
  have hqle : qN ≤ 20 := min_le_right _ _
  have hele : eN ≤ 10 := by rw [he]; split_ifs <;> omega
  have hale : a ≤ 40 := min_le_right _ _
  have hsum : round1 (a + (cN : ℚ) + (qN : ℚ) + (eN : ℚ))
      = round1 a + (cN : ℚ) + (qN : ℚ) + (eN : ℚ) := by
    have hrw : a + (cN : ℚ) + (qN : ℚ) + (eN : ℚ) = a + ((cN + qN + eN : ℕ) : ℚ) := by
      push_cast; ring
    rw [hrw, round1_add_natCast]
    push_cast
    ring
  refine ⟨?_, ?_, ?_, ?_, ?_, ?_, ?_, ?_⟩
  · have := round1_le_intCast (c := 40) hale
    simpa using this
  · rw [round1_natCast]
    exact_mod_cast hcle
  · rw [round1_natCast]
    exact_mod_cast hqle
  · rw [he]
    split_ifs
    · right
      rw [round1_natCast]
      norm_num
    · left
      rw [round1_natCast]
      norm_num
  · rw [round1_natCast]
    positivity
  · rw [round1_natCast]
    positivity
  · rw [hsum, round1_natCast, round1_natCast, round1_natCast]
  · intro hd
    have hann : 0 ≤ a := by
      rw [ha]
      apply le_min
      · positivity
      · norm_num
    refine ⟨?_, ?_, ?_⟩
    · have := round1_intCast_le (c := 0) (by simpa using hann)
      simpa using this
    · have harg : (0:ℚ) ≤ a + (cN : ℚ) + (qN : ℚ) + (eN : ℚ) := by positivity
      have := round1_intCast_le (c := 0) (by simpa using harg)
      simpa using this
    · have harg : a + (cN : ℚ) + (qN : ℚ) + (eN : ℚ) ≤ 100 := by
        have h1 : (cN : ℚ) ≤ 30 := by exact_mod_cast hcle
        have h2 : (qN : ℚ) ≤ 20 := by exact_mod_cast hqle
        have h3 : (eN : ℚ) ≤ 10 := by exact_mod_cast hele
        linarith
      have := round1_le_intCast (c := 100) (by simpa using harg)
      simpa using this

/-- Claim C1 witness: the bounds at a concrete input (`D = 60`, the
spec's scenario participant with 55 attended minutes and no chat data). -/
theorem claim1_score_bounds_witness :
    (0:ℚ) < 60 ∧
    ((scoreParticipant 60 [] ⟨"cara@y.com", "Cara", 55⟩).attendance_score ≤ 40 ∧
     (scoreParticipant 60 [] ⟨"cara@y.com", "Cara", 55⟩).chat_score ≤ 30 ∧
     (scoreParticipant 60 [] ⟨"cara@y.com", "Cara", 55⟩).question_score ≤ 20 ∧
     ((scoreParticipant 60 [] ⟨"cara@y.com", "Cara", 55⟩).end_score = 0 ∨
      (scoreParticipant 60 [] ⟨"cara@y.com", "Cara", 55⟩).end_score = 10) ∧
     0 ≤ (scoreParticipant 60 [] ⟨"cara@y.com", "Cara", 55⟩).chat_score ∧
     0 ≤ (scoreParticipant 60 [] ⟨"cara@y.com", "Cara", 55⟩).question_score ∧
     (scoreParticipant 60 [] ⟨"cara@y.com", "Cara", 55⟩).total_score
       = (scoreParticipant 60 [] ⟨"cara@y.com", "Cara", 55⟩).attendance_score
         + (scoreParticipant 60 [] ⟨"cara@y.com", "Cara", 55⟩).chat_score
         + (scoreParticipant 60 [] ⟨"cara@y.com", "Cara", 55⟩).question_score
         + (scoreParticipant 60 [] ⟨"cara@y.com", "Cara", 55⟩).end_score ∧
     (0 ≤ (⟨"cara@y.com", "Cara", 55⟩ : AttRow).duration →
       0 ≤ (scoreParticipant 60 [] ⟨"cara@y.com", "Cara", 55⟩).attendance_score ∧
       0 ≤ (scoreParticipant 60 [] ⟨"cara@y.com", "Cara", 55⟩).total_score ∧
       (scoreParticipant 60 [] ⟨"cara@y.com", "Cara", 55⟩).total_score ≤ 100)) :=
  ⟨by norm_num, claim1_score_bounds 60 [] ⟨"cara@y.com", "Cara", 55⟩ (by norm_num)⟩

/-- Claim C2: the category tier is a pure function of the total score that
partitions the score line with no gaps or overlaps: Hot exactly when the
total is at least 70, Warm exactly when it is in `[40, 70)`, Cold exactly
when it is below 40; the boundary values 70 and 40 map to Hot and Warm. -/
theorem claim2_category_partition (t : ℚ) :
    (categorize t = "Hot" ↔ 70 ≤ t) ∧
    (categorize t = "Warm" ↔ 40 ≤ t ∧ t < 70) ∧
    (categorize t = "Cold" ↔ t < 40) ∧
    categorize (70 : ℚ) = "Hot" ∧ categorize (40 : ℚ) = "Warm" := by
  have hhw : ("Hot" : String) ≠ "Warm" := by decide
  have hhc : ("Hot" : String) ≠ "Cold" := by decide
  have hwc : ("Warm" : String) ≠ "Cold" := by decide
  unfold categorize
  refine ⟨?_, ?_, ?_, ?_, ?_⟩
  · split_ifs with h1 h2
    · simp [h1]
    · simp only [hhw.symm, false_iff]
      intro h
      exact h1 h
    · simp only [hhc.symm, false_iff]
      intro h
      exact h1 h
  · split_ifs with h1 h2
    · simp only [hhw, false_iff]
      rintro ⟨-, h⟩
      exact absurd h1 (not_le_of_lt h)
    · simp only [true_iff]
      exact ⟨h2, lt_of_not_le h1⟩
    · simp only [hwc.symm, false_iff]
      rintro ⟨h, -⟩
      exact h2 h
  · split_ifs with h1 h2
    · simp only [hhc, false_iff, not_lt]
      linarith
    · simp only [hwc, false_iff, not_lt]
      linarith
    · simp only [true_iff]
      exact lt_of_not_le h2
  · rw [if_pos (by norm_num : (70:ℚ) ≤ 70)]
  · rw [if_neg (by norm_num : ¬ (70:ℚ) ≤ 40), if_pos (by norm_num : (40:ℚ) ≤ 40)]

/-- Claim C2 witness: the partition at a concrete boundary score. -/
theorem claim2_category_partition_witness :
    (categorize (40 : ℚ) = "Warm" ↔ (40:ℚ) ≤ 40 ∧ (40:ℚ) < 70) :=
  (claim2_category_partition 40).2.1

/-- The values a numpy float64 computation can take in the analyzer's
attendance formula: a finite value, a signed infinity, or NaN. -/
inductive NpFloat where
  | fin (q : ℚ)
  | posInf
  | negInf
  | nan
deriving DecidableEq

/-- numpy float64 division on finite operands: dividing by zero does not
raise — it emits a RuntimeWarning and yields `±inf` (or `NaN` for `0/0`). -/
def npDiv (a b : ℚ) : NpFloat :=
  if b = 0 then (if 0 < a then NpFloat.posInf else if a < 0 then NpFloat.negInf
    else NpFloat.nan)
  else NpFloat.fin (a / b)

/-- Multiplication of such a value by the positive constant 40. -/
def npMul40 : NpFloat → NpFloat
  | NpFloat.fin q => NpFloat.fin (q * 40)
  | NpFloat.posInf => NpFloat.posInf
  | NpFloat.negInf => NpFloat.negInf
  | NpFloat.nan => NpFloat.nan

/-- Python `min(x, 40)`: keeps `x` unless `40 < x`; with NaN every
comparison is false, so `min(nan, 40)` is NaN, and `min(inf, 40) = 40`. -/
def pyMin40 : NpFloat → NpFloat
  | NpFloat.fin q => NpFloat.fin (min q 40)
  | NpFloat.posInf => NpFloat.fin 40
  | NpFloat.negInf => NpFloat.negInf
  | NpFloat.nan => NpFloat.nan

/-- The analyzer script's attendance component
(masterclass_analyzer.py:434-437): `min((duration / D) * 40, 40)` with no
`float()` coercion — `duration` is a numpy float64, so `D = 0` divides to
infinity (with a warning) instead of raising. -/
def analyzerAttendance (D d : ℚ) : NpFloat := pyMin40 (npMul40 (npDiv d D))

/-- Claim C4, amended: neither implementation validates the session
duration, and neither raises a configuration error. For every `D ≠ 0` —
including negative `D` — both succeed, the analyzer's attendance agreeing
with the shared formula. At `D = 0` the dashboard (whose `float()` coercion
makes the division a Python-float one) fails with an unhandled
`ZeroDivisionError` exactly when at least one row is scored, while the
analyzer script's numpy division succeeds with attendance clamped to 40
for positive durations and NaN for zero durations. -/
theorem claim4_no_duration_validation :
    (∀ (D : ℚ) (chat : List ChatMessage) (rows : List AttRow),
      scoreTable D chat rows = none ↔ (D = 0 ∧ rows ≠ [])) ∧
    (∀ d : ℚ, 0 < d → analyzerAttendance 0 d = NpFloat.fin 40) ∧
    analyzerAttendance 0 0 = NpFloat.nan ∧
    (∀ D d : ℚ, D ≠ 0 →
      analyzerAttendance D d = NpFloat.fin (min (d / D * 40) 40)) := by
  refine ⟨?_, ?_, ?_, ?_⟩
  · intro D chat rows
    induction rows with
    | nil => simp [scoreTable]
    | cons r rest ih =>
      by_cases hD : D = 0
      · simp [scoreTable, hD]
      · rcases h : scoreTable D chat rest with - | tl
        · rw [ih] at h
          exact absurd h.1 hD
        · simp [scoreTable, hD, h]
  · intro d hd
    unfold analyzerAttendance npDiv
    rw [if_pos rfl, if_pos hd]
    rfl
  · unfold analyzerAttendance npDiv
    rw [if_pos rfl, if_neg (by norm_num), if_neg (by norm_num)]
    rfl
  · intro D d hD
    unfold analyzerAttendance npDiv
    rw [if_neg hD]
    rfl

/-- Claim C4 witness: the amended statement at concrete inputs — the
dashboard fails on a nonempty table at `D = 0` (and succeeds on an empty
one), the analyzer clamps attendance to 40 at `D = 0` with a positive
duration, and both agree at `D = 60`. -/
theorem claim4_no_duration_validation_witness :
    (scoreTable 0 [] ([] : List AttRow) = none ↔ ((0:ℚ) = 0 ∧ ([] : List AttRow) ≠ [])) ∧
    (scoreTable 0 [] [⟨"a@x.com", "A", 5⟩] = none
      ↔ ((0:ℚ) = 0 ∧ [(⟨"a@x.com", "A", 5⟩ : AttRow)] ≠ [])) ∧
    analyzerAttendance 0 30 = NpFloat.fin 40 ∧
    analyzerAttendance 60 30 = NpFloat.fin (min ((30:ℚ) / 60 * 40) 40) :=
  ⟨claim4_no_duration_validation.1 0 [] [],
   claim4_no_duration_validation.1 0 [] _,
   claim4_no_duration_validation.2.1 30 (by norm_num),
   claim4_no_duration_validation.2.2.2 60 30 (by norm_num)⟩

/-- Claim C4 counterexample: the claim says a non-positive duration is
rejected with a configuration error before any scoring starts; the code
instead scores happily at `D = -60` (both implementations compute the same
values for `D ≠ 0`), producing an attendance component of `-20` and a total
of `-10` (it even awards the stayed-to-end bonus). -/
theorem claim4_counterexample :
    ((-60 : ℚ) ≤ 0) ∧
    scoreTable (-60) [] [⟨"lead@x.com", "Lead", 30⟩]
      = some [scoreParticipant (-60) [] ⟨"lead@x.com", "Lead", 30⟩] ∧
    (scoreParticipant (-60) [] ⟨"lead@x.com", "Lead", 30⟩).attendance_score = -20 ∧
    (scoreParticipant (-60) [] ⟨"lead@x.com", "Lead", 30⟩).total_score = -10 := by
  have hmsgs : participantMsgs [] "Lead" = [] := participantMsgs_nil _
  have hmin : min ((30 : ℚ) / (-60) * 40) 40 = -20 := by
    rw [min_eq_left (by norm_num)]
    norm_num
  have hcond : (0.8 : ℚ) * (-60) ≤ (30 : ℚ) := by norm_num
  refine ⟨by norm_num, ?_, ?_, ?_⟩
  · rw [scoreTable, scoreTable, if_neg (by norm_num : ¬ (-60 : ℚ) = 0)]
  · rw [scoreParticipant_attendance]
    show round1 (min ((30 : ℚ) / (-60) * 40) 40) = -20
    rw [hmin]
    have := round1_intCast (-20)
    push_cast at this
    exact this
  · rw [scoreParticipant_total]
    show round1 (min ((30 : ℚ) / (-60) * 40) 40
      + ((min ((participantMsgs [] "Lead").length * 5) 30 : ℕ) : ℚ)
      + ((min (((participantMsgs [] "Lead").filter (fun c => c.is_question)).length * 10)
          20 : ℕ) : ℚ)
      + ((if (0.8 : ℚ) * (-60) ≤ (30:ℚ) then 10 else 0 : ℕ) : ℚ)) = -10
    rw [hmin, hmsgs, if_pos hcond]
    norm_num
    have h10 := round1_intCast (-10)
    push_cast at h10
    exact h10

/-- Claim C10: the 10-point stayed-to-end bonus is only awarded together
with an attendance component of at least 32 (80 percent of its 40-point
cap): with `D > 0`, `end_score = 10` forces `attendance_score ≥ 32`. -/
theorem claim10_end_bonus_implies_attendance (D : ℚ) (chat : List ChatMessage) (r : AttRow)
    (hD : 0 < D) (hend : (scoreParticipant D chat r).end_score = 10) :
    32 ≤ (scoreParticipant D chat r).attendance_score := by
  rw [scoreParticipant_end] at hend
  by_cases hc : (0.8 : ℚ) * D ≤ r.duration
  · rw [scoreParticipant_attendance]
    have hratio : (0.8 : ℚ) ≤ r.duration / D := by
      rw [le_div_iff₀ hD]
      linarith
    have h32 : (32 : ℚ) ≤ min (r.duration / D * 40) 40 := by
      apply le_min
      · nlinarith
      · norm_num
    have := round1_intCast_le (c := 32) (by exact_mod_cast h32)
    simpa using this
  · rw [if_neg hc] at hend
    rw [round1_natCast] at hend
    norm_num at hend

/-- Claim C10 witness: at `D = 60` a participant with 50 attended minutes
earns the end bonus, and the theorem yields the attendance lower bound. -/
theorem claim10_end_bonus_implies_attendance_witness :
    (0:ℚ) < 60 ∧ (scoreParticipant 60 [] ⟨"w@x.com", "Wendy", 50⟩).end_score = 10 ∧
    32 ≤ (scoreParticipant 60 [] ⟨"w@x.com", "Wendy", 50⟩).attendance_score := by
  have hend : (scoreParticipant 60 [] ⟨"w@x.com", "Wendy", 50⟩).end_score = 10 := by
    rw [scoreParticipant_end]
    show round1 (((if (0.8:ℚ) * 60 ≤ (50:ℚ) then 10 else 0 : ℕ) : ℚ)) = 10
    rw [if_pos (by norm_num)]
    rw [round1_natCast]
    norm_num
  exact ⟨by norm_num, hend,
    claim10_end_bonus_implies_attendance 60 [] ⟨"w@x.com", "Wendy", 50⟩ (by norm_num) hend⟩

/-- Total duration of a list of rows (the `sum` aggregation of the dedup). -/
def sumDur (rows : List AttRow) : ℚ := (rows.map (fun r => r.duration)).sum

/-- `groupby(email).agg({duration: sum, other: first})`
(dashboard.py:132-145, masterclass_analyzer.py:137-144): one output row per
distinct normalized email, carrying the first-seen values of the other
fields and the summed duration. Rows are produced in first-seen order;
pandas emits groups in sorted key order, a permutation with the same
per-email records, which no claim distinguishes. -/
def groupDedup : List AttRow → List AttRow
  | [] => []
  | r :: rest =>
    ⟨r.email, r.name, r.duration + sumDur (rest.filter (fun x => x.email == r.email))⟩
      :: groupDedup (rest.filter (fun x => x.email != r.email))
termination_by l => l.length
decreasing_by
  simp only [List.length_cons]
  exact Nat.lt_succ_of_le (List.length_filter_le _ _)

/-- Dropping rows with a key different from `d` does not change the first
row with key `e` when `d ≠ e`. -/
theorem find_filter_of_ne {α : Type} (key : α → String) {e d : String} (h : d ≠ e) :
    ∀ l : List α,
      (l.filter (fun x => key x != d)).find? (fun x => key x == e)
        = l.find? (fun x => key x == e)
  | [] => rfl
  | a :: l => by
    by_cases hd : key a = d
    · rw [List.filter_cons_of_neg (by simp [hd])]
      rw [List.find?_cons_of_neg _ (by simp [hd, h])]
      exact find_filter_of_ne key h l
    · rw [List.filter_cons_of_pos (by simp [hd])]
      by_cases he : key a = e
      · rw [List.find?_cons_of_pos _ (by simp [he]), List.find?_cons_of_pos _ (by simp [he])]
      · rw [List.find?_cons_of_neg _ (by simp [he]), List.find?_cons_of_neg _ (by simp [he])]
        exact find_filter_of_ne key h l

/-- Dropping rows with a key different from `d` does not change the rows
with key `e` when `d ≠ e`. -/
theorem filter_filter_of_ne {α : Type} (key : α → String) {e d : String} (h : d ≠ e) :
    ∀ l : List α,
      (l.filter (fun x => key x != d)).filter (fun x => key x == e)
        = l.filter (fun x => key x == e)
  | [] => rfl
  | a :: l => by
    by_cases hd : key a = d
    · rw [List.filter_cons_of_neg (p := fun x => key x != d) (by simp [hd])]
      rw [List.filter_cons_of_neg (p := fun x => key x == e) (by simp [hd, h])]
      exact filter_filter_of_ne key h l
    · rw [List.filter_cons_of_pos (p := fun x => key x != d) (by simp [hd])]
      by_cases he : key a = e
      · rw [List.filter_cons_of_pos (by simp [he]), List.filter_cons_of_pos (by simp [he])]
        rw [filter_filter_of_ne key h l]
      · rw [List.filter_cons_of_neg (by simp [he]), List.filter_cons_of_neg (by simp [he])]
        exact filter_filter_of_ne key h l

/-- Every record produced by the dedup takes its email from some input row. -/
theorem groupDedup_email_mem : ∀ (rows : List AttRow) (g : AttRow),
    g ∈ groupDedup rows → ∃ r ∈ rows, r.email = g.email := by
  intro rows
  induction rows using groupDedup.induct with
  | case1 => intro g hg; simp [groupDedup] at hg
  | case2 r rest ih =>
    intro g hg
    rw [groupDedup] at hg
    rcases List.mem_cons.mp hg with hg | hg
    · exact ⟨r, List.mem_cons_self r rest, by rw [hg]⟩
    · obtain ⟨x, hx, hxe⟩ := ih g hg
      exact ⟨x, List.mem_cons_of_mem r (List.mem_of_mem_filter hx), hxe⟩

/-- Claim C5: if an email occurs at all in the attendance export, the dedup
produces exactly one record for it, whose duration is the sum of the
durations of all rows with that email and whose other fields come from the
first such row. -/
theorem claim5_dedup_sums_durations (rows : List AttRow) (e : String) (r0 : AttRow)
    (hfind : rows.find? (fun x => x.email == e) = some r0) :
    (groupDedup rows).filter (fun x => x.email == e)
      = [⟨e, r0.name, sumDur (rows.filter (fun x => x.email == e))⟩] := by
  induction rows using groupDedup.induct generalizing r0 with
  | case1 => simp at hfind
  | case2 r rest ih =>
    by_cases he : r.email = e
    · have hr0 : r0 = r := by
        rw [List.find?_cons_of_pos _ (by simp [he])] at hfind
        exact (Option.some_injective _ hfind).symm
      rw [groupDedup]
      rw [List.filter_cons_of_pos (by simp [he])]
      have htail : (groupDedup (rest.filter (fun x => x.email != r.email))).filter
          (fun x => x.email == e) = [] := by
        rw [List.filter_eq_nil_iff]
        intro g hg
        obtain ⟨x, hx, hxe⟩ := groupDedup_email_mem _ g hg
        have hxne : (x.email != r.email) = true := (List.mem_filter.mp hx).2
        simp only [bne_iff_ne, ne_eq] at hxne
        simp only [beq_iff_eq]
        rw [← hxe, ← he]
        exact hxne
      rw [htail, hr0]
      have hfil : (r :: rest).filter (fun x => x.email == e)
          = r :: rest.filter (fun x => x.email == e) :=
        List.filter_cons_of_pos (by simp [he])
      rw [hfil]
      have hsum : sumDur (r :: rest.filter (fun x => x.email == e))
          = r.duration + sumDur (rest.filter (fun x => x.email == e)) := by
        simp [sumDur]
      rw [hsum]
      have hee : rest.filter (fun x => x.email == r.email)
          = rest.filter (fun x => x.email == e) := by rw [he]
      rw [hee, he]
    · have hfind' : rest.find? (fun x => x.email == e) = some r0 := by
        rw [List.find?_cons_of_neg _ (by simp [he])] at hfind
        exact hfind
      have hfind'' : (rest.filter (fun x => x.email != r.email)).find?
          (fun x => x.email == e) = some r0 := by
        rw [find_filter_of_ne (fun x => x.email) he rest]
        exact hfind'
      rw [groupDedup]
      rw [List.filter_cons_of_neg (by simp [he])]
      rw [ih r0 hfind'']
      rw [filter_filter_of_ne (fun x => x.email) he rest]
      rw [List.filter_cons_of_neg (by simp [he])]

/-- Claim C5 witness: the spec's scenario — bob split across two rows with
durations 10 and 25 dedups to a single record with duration 35 carrying the
first row's name. -/
theorem claim5_dedup_sums_durations_witness :
    ([⟨"bob@x.com", "Bob", 10⟩, ⟨"bob@x.com", "Bobby", 25⟩,
      ⟨"cara@y.com", "Cara", 55⟩] : List AttRow).find? (fun x => x.email == "bob@x.com")
        = some ⟨"bob@x.com", "Bob", 10⟩ ∧
    (groupDedup [⟨"bob@x.com", "Bob", 10⟩, ⟨"bob@x.com", "Bobby", 25⟩,
      ⟨"cara@y.com", "Cara", 55⟩]).filter (fun x => x.email == "bob@x.com")
        = [⟨"bob@x.com", "Bob", 35⟩] := by
  have hfind : ([⟨"bob@x.com", "Bob", 10⟩, ⟨"bob@x.com", "Bobby", 25⟩,
      ⟨"cara@y.com", "Cara", 55⟩] : List AttRow).find? (fun x => x.email == "bob@x.com")
        = some ⟨"bob@x.com", "Bob", 10⟩ := by
    rw [List.find?_cons_of_pos _ (by decide)]
  refine ⟨hfind, ?_⟩
  rw [claim5_dedup_sums_durations _ "bob@x.com" _ hfind]
  have : sumDur (([⟨"bob@x.com", "Bob", 10⟩, ⟨"bob@x.com", "Bobby", 25⟩,
      ⟨"cara@y.com", "Cara", 55⟩] : List AttRow).filter (fun x => x.email == "bob@x.com"))
      = 35 := by
    rw [List.filter_cons_of_pos (by decide), List.filter_cons_of_pos (by decide),
      List.filter_cons_of_neg (by decide), List.filter_nil]
    simp [sumDur]
    norm_num
  rw [this]

/-- A normalized CRM lead row (Lead Loader output): normalized email, owner
and profile (the columns the dashboard matcher carries into the join). -/
structure LeadRow where
  email : String
  rm_name : String
  profile : String
deriving DecidableEq

/-- A row of the dashboard's matched table
(`participants.merge(crm[...].drop_duplicates(subset='email'), on='email',
how='left')` with `fillna` defaults, dashboard.py:269-278). -/
structure MatchedRow where
  email : String
  name : String
  duration : ℚ
  rm_name : String
  profile : String
deriving DecidableEq

/-- A row of the analyzer script's matched table
(`participants.merge(crm, on='email_normalized', how='left')`,
masterclass_analyzer.py:395-401): unmatched rows carry NaN CRM fields,
modelled as `none`. -/
structure MatchedRowA where
  email : String
  name : String
  duration : ℚ
  crm : Option LeadRow
deriving DecidableEq

/-- `drop_duplicates(subset='email')` (keep-first) on the CRM table. -/
def dropDupEmails : List LeadRow → List LeadRow
  | [] => []
  | l :: rest => l :: dropDupEmails (rest.filter (fun x => x.email != l.email))
termination_by l => l.length
decreasing_by
  simp only [List.length_cons]
  exact Nat.lt_succ_of_le (List.length_filter_le _ _)

/-- One left-join output row of the dashboard matcher: the unique matching
lead row, or the `fillna` defaults `Unassigned` / `Unknown`. -/
def mergeOne (a : AttRow) : Option LeadRow → MatchedRow
  | some l => ⟨a.email, a.name, a.duration, l.rm_name, l.profile⟩
  | none => ⟨a.email, a.name, a.duration, "Unassigned", "Unknown"⟩

/-- The dashboard matcher (dashboard.py:269-278): left-merge the attendance
table with the CRM table deduplicated keep-first on email; since the right
table has unique keys, pandas produces exactly one output row per attendee. -/
def matchDashboard (A : List AttRow) (L : List LeadRow) : List MatchedRow :=
  A.map (fun a => mergeOne a ((dropDupEmails L).find? (fun l => l.email == a.email)))

/-- All merge partners of one attendee in the analyzer script's merge: every
CRM row with the same email, or a single NaN row when there is none. -/
def matchRowsA (a : AttRow) (L : List LeadRow) : List MatchedRowA :=
  match L.filter (fun l => l.email == a.email) with
  | [] => [⟨a.email, a.name, a.duration, none⟩]
  | ms => ms.map (fun l => ⟨a.email, a.name, a.duration, some l⟩)

/-- The analyzer script's matcher (masterclass_analyzer.py:395-401): a plain
pandas left merge with no deduplication of the CRM side — an attendee whose
email appears in several CRM rows yields several output rows. -/
def leftMergeAnalyzer : List AttRow → List LeadRow → List MatchedRowA
  | [], _ => []
  | a :: A, L => matchRowsA a L ++ leftMergeAnalyzer A L

/-- Keep-first dedup does not change which row is found first. -/
theorem find_dropDupEmails (e : String) : ∀ L : List LeadRow,
    (dropDupEmails L).find? (fun l => l.email == e) = L.find? (fun l => l.email == e) := by
  intro L
  induction L using dropDupEmails.induct with
  | case1 => simp [dropDupEmails]
  | case2 l rest ih =>
    rw [dropDupEmails]
    by_cases he : l.email = e
    · rw [List.find?_cons_of_pos _ (by simp [he]), List.find?_cons_of_pos _ (by simp [he])]
    · rw [List.find?_cons_of_neg _ (by simp [he]), List.find?_cons_of_neg _ (by simp [he])]
      rw [ih]
      exact find_filter_of_ne (fun l => l.email) he rest

/-- With no duplicated emails in the CRM table, each attendee has at most
one merge partner. -/
theorem filter_length_le_one_of_nodup {L : List LeadRow}
    (h : (L.map (fun l => l.email)).Nodup) (e : String) :
    (L.filter (fun l => l.email == e)).length ≤ 1 := by
  induction L with
  | nil => simp
  | cons l rest ih =>
    simp only [List.map_cons, List.nodup_cons] at h
    by_cases he : l.email = e
    · rw [List.filter_cons_of_pos (by simp [he])]
      have hnil : rest.filter (fun x => x.email == e) = [] := by
        rw [List.filter_eq_nil_iff]
        intro x hx hbeq
        apply h.1
        rw [List.mem_map]
        exact ⟨x, hx, (beq_iff_eq.mp hbeq).trans he.symm⟩
      rw [hnil]
      simp
    · rw [List.filter_cons_of_neg (by simp [he])]
      exact ih h.2

/-- With unique CRM emails, the analyzer merge emits exactly one row per
attendee. -/
theorem matchRowsA_length_of_nodup {L : List LeadRow}
    (h : (L.map (fun l => l.email)).Nodup) (a : AttRow) :
    (matchRowsA a L).length = 1 := by
  unfold matchRowsA
  rcases hf : L.filter (fun l => l.email == a.email) with - | ⟨m, ms⟩
  · rw [hf]
    rfl
  · rw [hf]
    have hlen := filter_length_le_one_of_nodup h a.email
    rw [hf] at hlen
    simp only [List.length_cons] at hlen
    have hms : ms = [] := List.eq_nil_of_length_eq_zero (by omega)
    subst hms
    rfl

/-- Claim C3, amended: the dashboard matcher always returns exactly one row
per attendee — for any lead table, including an empty one or one with
duplicated emails — and the lead row used is the first CRM row carrying the
attendee's email. The analyzer script's matcher preserves the attendee
count only when no email is duplicated in the lead table. -/
theorem claim3_left_join_cardinality (A : List AttRow) (L : List LeadRow) :
    (matchDashboard A L).length = A.length ∧
    matchDashboard A L = A.map (fun a => mergeOne a (L.find? (fun l => l.email == a.email))) ∧
    ((L.map (fun l => l.email)).Nodup → (leftMergeAnalyzer A L).length = A.length) := by
  refine ⟨List.length_map _ _, ?_, ?_⟩
  · unfold matchDashboard
    apply List.map_congr_left
    intro a ha
    rw [find_dropDupEmails]
  · intro hnd
    induction A with
    | nil => rfl
    | cons a A ih =>
      rw [leftMergeAnalyzer]
      rw [List.length_append, matchRowsA_length_of_nodup hnd a, ih]
      simp [List.length_cons]
      omega

/-- Claim C3 witness: the amended statement at a concrete attendee and a
duplicate-free lead table. -/
theorem claim3_left_join_cardinality_witness :
    (matchDashboard [⟨"bob@x.com", "Bob", 10⟩] [⟨"bob@x.com", "R1", "P1"⟩]).length = 1 ∧
    (([⟨"bob@x.com", "R1", "P1"⟩] : List LeadRow).map (fun l => l.email)).Nodup ∧
    (leftMergeAnalyzer [⟨"bob@x.com", "Bob", 10⟩] [⟨"bob@x.com", "R1", "P1"⟩]).length = 1 := by
  have h := claim3_left_join_cardinality [⟨"bob@x.com", "Bob", 10⟩] [⟨"bob@x.com", "R1", "P1"⟩]
  exact ⟨h.1, by decide, h.2.2 (by decide)⟩

/-- Claim C3 counterexample: the claim promises `len(match(A, L)) = len(A)`
for every lead table, but the analyzer script's matcher duplicates an
attendee whose email occurs twice in the CRM export: one attendee row and
two duplicate lead rows produce two matched rows. -/
theorem claim3_counterexample :
    (leftMergeAnalyzer [⟨"bob@x.com", "Bob", 10⟩]
        [⟨"bob@x.com", "R1", "P1"⟩, ⟨"bob@x.com", "R2", "P2"⟩]).length = 2 ∧
    ([⟨"bob@x.com", "Bob", 10⟩] : List AttRow).length = 1 := by
  constructor
  · rw [leftMergeAnalyzer, leftMergeAnalyzer]
    rw [matchRowsA]
    rw [List.filter_cons_of_pos (by decide), List.filter_cons_of_pos (by decide),
      List.filter_nil]
    rfl
  · rfl

/-- The exclusion configuration: domain suffixes and exact emails
(`EXCLUDED_DOMAINS` / `EXCLUDED_EMAILS`, masterclass_analyzer.py:11-24;
hardcoded class constants in the source, passed here as parameters). -/
structure ExclusionConfig where
  domains : List String
  emails : List String
deriving DecidableEq

/-- `is_team_member` (masterclass_analyzer.py:35-51): strip and lowercase
the email, then test suffix match against each excluded domain (lowercased)
and exact membership in the lowercased excluded emails. -/
def isTeamMember (cfg : ExclusionConfig) (email : String) : Bool :=
  let e := normEmail email
  cfg.domains.any (fun d => (toLowerStr d).data.isSuffixOf e.data)
    || (cfg.emails.map (fun x => toLowerStr x)).contains e

/-- `filter_team_members` (masterclass_analyzer.py:53-82): drop every row
whose email is a team member's. -/
def filterTeamMembers (cfg : ExclusionConfig) (rows : List AttRow) : List AttRow :=
  rows.filter (fun r => !(isTeamMember cfg r.email))

/-- Email normalization applied by both loaders
(`str.strip().str.lower()`). -/
def normalizeEmails (rows : List AttRow) : List AttRow :=
  rows.map (fun r => ⟨normEmail r.email, r.name, r.duration⟩)

/-- The analyzer script's attendance loader
(masterclass_analyzer.py:84-159): normalize emails, deduplicate by email
summing durations, then — after the dedup — remove team members. -/
def loadAnalyzer (cfg : ExclusionConfig) (rows : List AttRow) : List AttRow :=
  filterTeamMembers cfg (groupDedup (normalizeEmails rows))

/-- The dashboard's attendance loader (dashboard.py:127-145): normalize
emails, drop empty/"nan" emails, deduplicate by email summing durations.
It applies no team-member exclusion at all. -/
def loadDashboard (rows : List AttRow) : List AttRow :=
  groupDedup ((normalizeEmails rows).filter
    (fun r => r.email != "" && r.email != "nan"))

/-- The scorer input row carried by a matched row of the analyzer table. -/
def MatchedRowA.toAtt (m : MatchedRowA) : AttRow := ⟨m.email, m.name, m.duration⟩

/-- The scorer input row carried by a matched row of the dashboard table. -/
def MatchedRow.toAtt (m : MatchedRow) : AttRow := ⟨m.email, m.name, m.duration⟩

/-- Every email in the analyzer's merged table is an attendee's email. -/
theorem leftMergeAnalyzer_email_mem : ∀ (A : List AttRow) (L : List LeadRow)
    (m : MatchedRowA), m ∈ leftMergeAnalyzer A L → ∃ a ∈ A, m.email = a.email
  | [], _, m => by simp [leftMergeAnalyzer]
  | a :: A, L, m => by
    intro hm
    rw [leftMergeAnalyzer, List.mem_append] at hm
    rcases hm with hm | hm
    · refine ⟨a, List.mem_cons_self a A, ?_⟩
      unfold matchRowsA at hm
      rcases hf : L.filter (fun l => l.email == a.email) with - | ⟨x, xs⟩
      · rw [hf] at hm
        simp at hm
        rw [hm]
      · rw [hf] at hm
        rw [List.mem_map] at hm
        obtain ⟨l, -, hl⟩ := hm
        rw [← hl]
    · obtain ⟨x, hx, hxe⟩ := leftMergeAnalyzer_email_mem A L m hm
      exact ⟨x, List.mem_cons_of_mem a hx, hxe⟩

/-- Every email in a scored table is the email of a scored input row. -/
theorem scoreTable_email_mem : ∀ (D : ℚ) (chat : List ChatMessage) (rows : List AttRow)
    (out : List EngagementScore), scoreTable D chat rows = some out →
    ∀ s ∈ out, ∃ r ∈ rows, s.email = r.email := by
  intro D chat rows
  induction rows with
  | nil =>
    intro out hout s hs
    rw [scoreTable] at hout
    simp only [Option.some_inj] at hout
    rw [← hout] at hs
    simp at hs
  | cons r rest ih =>
    intro out hout s hs
    rw [scoreTable] at hout
    split_ifs at hout
    rcases htl : scoreTable D chat rest with - | tl
    · rw [htl] at hout
      simp at hout
    · rw [htl] at hout
      simp only [Option.some_inj] at hout
      rw [← hout] at hs
      rcases List.mem_cons.mp hs with hs | hs
      · exact ⟨r, List.mem_cons_self r rest, by rw [hs]; rfl⟩
      · obtain ⟨x, hx, hxe⟩ := ih tl htl s hs
        exact ⟨x, List.mem_cons_of_mem r hx, hxe⟩

/-- Email field of a scored record, unfolded. -/
theorem scoreParticipant_email (D : ℚ) (chat : List ChatMessage) (r : AttRow) :
    (scoreParticipant D chat r).email = r.email := rfl

/-- Filtering team members commutes with the dedup: excluding before or
after `groupby(email)` yields the same table, because membership is a
function of the email alone. -/
theorem filterTeam_groupDedup_comm (cfg : ExclusionConfig) : ∀ rows : List AttRow,
    filterTeamMembers cfg (groupDedup rows) = groupDedup (filterTeamMembers cfg rows) := by
  intro rows
  induction rows using groupDedup.induct with
  | case1 => simp [groupDedup, filterTeamMembers]
  | case2 r rest ih =>
    rw [groupDedup]
    rcases hteam : isTeamMember cfg r.email with - | -
    · -- r is kept
      unfold filterTeamMembers at ih ⊢
      rw [List.filter_cons_of_pos (by simp [hteam]), List.filter_cons_of_pos (by simp [hteam])]
      rw [ih]
      rw [groupDedup]
      have hA : (rest.filter (fun x => !(isTeamMember cfg x.email))).filter
          (fun x => x.email == r.email) = rest.filter (fun x => x.email == r.email) := by
        rw [List.filter_comm]
        apply List.filter_eq_self.mpr
        intro a ha
        have hae : a.email = r.email := by
          have := (List.mem_filter.mp ha).2
          exact beq_iff_eq.mp this
        rw [hae, hteam]
        rfl
      have hB : (rest.filter (fun x => !(isTeamMember cfg x.email))).filter
          (fun x => x.email != r.email)
          = (rest.filter (fun x => x.email != r.email)).filter
            (fun x => !(isTeamMember cfg x.email)) := List.filter_comm _ _ _
      rw [hA, hB]
    · -- r is excluded
      unfold filterTeamMembers at ih ⊢
      rw [List.filter_cons_of_neg (by simp [hteam]), List.filter_cons_of_neg (by simp [hteam])]
      rw [ih]
      have hC : (rest.filter (fun x => x.email != r.email)).filter
          (fun x => !(isTeamMember cfg x.email))
          = rest.filter (fun x => !(isTeamMember cfg x.email)) := by
        rw [List.filter_comm]
        apply List.filter_eq_self.mpr
        intro a ha
        have haP : (!(isTeamMember cfg a.email)) = true := (List.mem_filter.mp ha).2
        simp only [bne_iff_ne, ne_eq]
        intro hae
        rw [hae, hteam] at haP
        simp at haP
      rw [hC]

/-- Claim C6, amended: in the analyzer script every row whose normalized
email exactly matches an excluded email or ends with an excluded domain
suffix is removed by the attendance loader — after deduplication rather
than before, which provably yields the same table — and is therefore absent
from the matched table and from the scored list. The dashboard's own loader
applies no exclusion filtering at all. -/
theorem claim6_exclusion_filter (cfg : ExclusionConfig) (rows : List AttRow)
    (L : List LeadRow) (D : ℚ) (chat : List ChatMessage) :
    (∀ r ∈ loadAnalyzer cfg rows, isTeamMember cfg r.email = false) ∧
    (∀ m ∈ leftMergeAnalyzer (loadAnalyzer cfg rows) L,
      isTeamMember cfg m.email = false) ∧
    (∀ out, scoreTable D chat
        ((leftMergeAnalyzer (loadAnalyzer cfg rows) L).map MatchedRowA.toAtt) = some out →
      ∀ s ∈ out, isTeamMember cfg s.email = false) ∧
    loadAnalyzer cfg rows = groupDedup (filterTeamMembers cfg (normalizeEmails rows)) := by
  have h1 : ∀ r ∈ loadAnalyzer cfg rows, isTeamMember cfg r.email = false := by
    intro r hr
    unfold loadAnalyzer filterTeamMembers at hr
    have := (List.mem_filter.mp hr).2
    simpa using this
  have h2 : ∀ m ∈ leftMergeAnalyzer (loadAnalyzer cfg rows) L,
      isTeamMember cfg m.email = false := by
    intro m hm
    obtain ⟨a, ha, hae⟩ := leftMergeAnalyzer_email_mem _ L m hm
    rw [hae]
    exact h1 a ha
  refine ⟨h1, h2, ?_, filterTeam_groupDedup_comm cfg (normalizeEmails rows)⟩
  intro out hout s hs
  obtain ⟨r, hr, hre⟩ := scoreTable_email_mem D chat _ out hout s hs
  obtain ⟨m, hm, hmr⟩ := List.mem_map.mp hr
  rw [hre, ← hmr]
  exact h2 m hm

/-- Claim C6 witness: the amended statement at a concrete configuration
(excluded domain `@acme.com`) and a concrete attendance table. -/
theorem claim6_exclusion_filter_witness :
    (∀ r ∈ loadAnalyzer ⟨["@acme.com"], []⟩
        [⟨"alice@acme.com", "Alice", 30⟩, ⟨"bob@x.com", "Bob", 50⟩],
      isTeamMember ⟨["@acme.com"], []⟩ r.email = false) ∧
    loadAnalyzer ⟨["@acme.com"], []⟩
        [⟨"alice@acme.com", "Alice", 30⟩, ⟨"bob@x.com", "Bob", 50⟩]
      = groupDedup (filterTeamMembers ⟨["@acme.com"], []⟩
          (normalizeEmails [⟨"alice@acme.com", "Alice", 30⟩, ⟨"bob@x.com", "Bob", 50⟩])) :=
  ⟨(claim6_exclusion_filter ⟨["@acme.com"], []⟩
      [⟨"alice@acme.com", "Alice", 30⟩, ⟨"bob@x.com", "Bob", 50⟩] [] 60 []).1,
   (claim6_exclusion_filter ⟨["@acme.com"], []⟩
      [⟨"alice@acme.com", "Alice", 30⟩, ⟨"bob@x.com", "Bob", 50⟩] [] 60 []).2.2.2⟩

/-- Claim C6 counterexample: with excluded domain `@acme.com`, the row
`alice@acme.com` — which the exclusion predicate matches — survives the
dashboard's attendance loader, reaches its matched table, and is scored:
the claim's "absent from every downstream table and never scored" fails for
the dashboard pipeline, whose loader has no exclusion filter. -/
theorem claim6_counterexample :
    isTeamMember ⟨["@acme.com"], []⟩ "alice@acme.com" = true ∧
    (loadDashboard [⟨"alice@acme.com", "Alice", 30⟩]).map (fun r => r.email)
      = ["alice@acme.com"] ∧
    ((scoreTable 60 []
        ((matchDashboard (loadDashboard [⟨"alice@acme.com", "Alice", 30⟩]) []).map
          MatchedRow.toAtt)).getD []).map (fun s => s.email)
      = ["alice@acme.com"] := by
  have hn : normEmail "alice@acme.com" = "alice@acme.com" := by decide
  have hload : loadDashboard [⟨"alice@acme.com", "Alice", 30⟩]
      = [⟨"alice@acme.com", "Alice", 30 + sumDur ([] : List AttRow)⟩] := by
    simp only [loadDashboard, normalizeEmails, List.map, hn]
    rw [List.filter_cons_of_pos (by decide), List.filter_nil]
    rw [groupDedup]
    simp [groupDedup, List.filter_nil]
  refine ⟨by decide, ?_, ?_⟩
  · rw [hload]
    rfl
  · rw [hload]
    have hmatch : matchDashboard [⟨"alice@acme.com", "Alice", 30 + sumDur ([] : List AttRow)⟩] []
        = [⟨"alice@acme.com", "Alice", 30 + sumDur ([] : List AttRow),
            "Unassigned", "Unknown"⟩] := by
      simp [matchDashboard, dropDupEmails, mergeOne, List.find?]
    rw [hmatch]
    rw [show ([⟨"alice@acme.com", "Alice", 30 + sumDur ([] : List AttRow),
        "Unassigned", "Unknown"⟩] : List MatchedRow).map MatchedRow.toAtt
        = [⟨"alice@acme.com", "Alice", 30 + sumDur ([] : List AttRow)⟩] from rfl]
    rw [scoreTable, scoreTable, if_neg (by norm_num : ¬(60:ℚ) = 0)]
    simp only [Option.getD_some, List.map]
    rw [scoreParticipant_email]

/-- Python `range(0, stop, step)` for a positive step: the numbers
`0, step, 2*step, …` below `stop`. -/
def pyRange (stop step : ℕ) : List ℕ :=
  (List.range ((stop + step - 1) / step)).map (fun k => k * step)

/-- One sample of the exit timeline (dashboard.py:377-381,
masterclass_analyzer.py:522-526). -/
structure TimelineRow where
  minute : ℕ
  attendees : ℕ
  percentage : ℚ
deriving DecidableEq

/-- `analyze_exit_timeline`'s sampling loop (dashboard.py:371-381,
masterclass_analyzer.py:516-526): for each minute in
`range(0, D + 1, I)` count the attendees with `duration_mins >= minute`
and record the rounded percentage (the dashboard guards the empty table
with percentage 0; the analyzer script would raise on an empty table). -/
def exitTimeline (durs : List ℚ) (D I : ℕ) : List TimelineRow :=
  (pyRange (D + 1) I).map (fun m =>
    { minute := m
      attendees := (durs.filter (fun d => (m : ℚ) ≤ d)).length
      percentage := round1 (if 0 < durs.length
        then ((durs.filter (fun d => (m : ℚ) ≤ d)).length : ℚ) / (durs.length : ℚ) * 100
        else 0) })

/-- A pointwise-stronger filter keeps at least as many elements. -/
theorem length_filter_le_of_imp {α : Type} {p q : α → Bool}
    (h : ∀ x, q x = true → p x = true) :
    ∀ l : List α, (l.filter q).length ≤ (l.filter p).length := by
  intro l
  induction l with
  | nil => simp
  | cons a l ih =>
    by_cases hq : q a = true
    · rw [List.filter_cons_of_pos hq, List.filter_cons_of_pos (h a hq)]
      simpa using ih
    · rw [List.filter_cons_of_neg (by simp_all)]
      by_cases hp : p a = true
      · rw [List.filter_cons_of_pos hp]
        exact le_trans ih (by simp)
      · rw [List.filter_cons_of_neg (by simp_all)]
        exact ih

/-- Claim C7: for every attendance table and positive `D` and `I`, each
timeline sample's attendee count is the number of records with
`duration_minutes ≥ minute`; the sample minutes are exactly the multiples
of `I` up to `D`; and the attendee series is non-increasing in the sample
order. -/
theorem claim7_timeline_monotone (durs : List ℚ) (D I : ℕ) (hD : 0 < D) (hI : 0 < I) :
    (∀ t ∈ exitTimeline durs D I,
      t.attendees = (durs.filter (fun d => (t.minute : ℚ) ≤ d)).length) ∧
    (exitTimeline durs D I).map (fun t => t.minute) = pyRange (D + 1) I ∧
    (∀ k : ℕ, k * I ∈ pyRange (D + 1) I ↔ k * I ≤ D) ∧
    (exitTimeline durs D I).Pairwise (fun a b => b.attendees ≤ a.attendees) := by
  refine ⟨?_, ?_, ?_, ?_⟩
  · intro t ht
    obtain ⟨m, -, hm⟩ := List.mem_map.mp ht
    rw [← hm]
  · unfold exitTimeline
    rw [List.map_map]
    exact List.map_id _
  · intro k
    unfold pyRange
    constructor
    · intro hk
      obtain ⟨j, hj, hjk⟩ := List.mem_map.mp hk
      rw [List.mem_range] at hj
      have hje : j = k := Nat.eq_of_mul_eq_mul_right hI hjk
      subst hje
      have : j + 1 ≤ (D + 1 + I - 1) / I := hj
      have h2 : (j + 1) * I ≤ D + 1 + I - 1 := by
        have := (Nat.le_div_iff_mul_le hI).mp this
        exact this
      have h3 : D + 1 + I - 1 = D + I := by omega
      rw [h3] at h2
      have : j * I + I ≤ D + I := by
        calc j * I + I = (j + 1) * I := by ring
          _ ≤ D + I := h2
      omega
    · intro hk
      apply List.mem_map.mpr
      refine ⟨k, ?_, rfl⟩
      rw [List.mem_range]
      have h3 : D + 1 + I - 1 = D + I := by omega
      rw [h3]
      apply Nat.lt_of_succ_le
      apply (Nat.le_div_iff_mul_le hI).mpr
      calc (k + 1) * I = k * I + I := by ring
        _ ≤ D + I := by omega
  · unfold exitTimeline
    rw [List.pairwise_map]
    unfold pyRange
    rw [List.pairwise_map]
    refine List.Pairwise.imp ?_ (List.pairwise_lt_range _)
    intro j j' hjj
    show (durs.filter (fun d => ((j' * I : ℕ) : ℚ) ≤ d)).length
        ≤ (durs.filter (fun d => ((j * I : ℕ) : ℚ) ≤ d)).length
    apply length_filter_le_of_imp
    intro x hx
    have hmm : ((j * I : ℕ) : ℚ) ≤ ((j' * I : ℕ) : ℚ) := by
      have hn : j * I ≤ j' * I := Nat.mul_le_mul_right I (le_of_lt hjj)
      exact_mod_cast hn
    have hxd := of_decide_eq_true hx
    apply decide_eq_true
    linarith

/-- Claim C7 witness: the theorem at a concrete table and parameters. -/
theorem claim7_timeline_monotone_witness :
    0 < 20 ∧ 0 < 10 ∧
    ((∀ t ∈ exitTimeline [3, 20, 50] 20 10,
      t.attendees = (([3, 20, 50] : List ℚ).filter (fun d => (t.minute : ℚ) ≤ d)).length) ∧
    (exitTimeline [3, 20, 50] 20 10).map (fun t => t.minute) = pyRange (20 + 1) 10 ∧
    (∀ k : ℕ, k * 10 ∈ pyRange (20 + 1) 10 ↔ k * 10 ≤ 20) ∧
    (exitTimeline [3, 20, 50] 20 10).Pairwise (fun a b => b.attendees ≤ a.attendees)) :=
  ⟨by decide, by decide, claim7_timeline_monotone [3, 20, 50] 20 10 (by decide) (by decide)⟩

/-- The dashboard loader's header test (dashboard.py:78): the line must
contain `'Email'`, `'Duration'` and `'Name'` — Python's case-sensitive
`in` operator. -/
def headerLine (line : String) : Bool :=
  isInfixB "Email".data line.data && isInfixB "Duration".data line.data
    && isInfixB "Name".data line.data

/-- Modelled from the spec: the spec's words ask for *case-insensitive*
substring detection of the Email/Duration/Name columns; this predicate is
the spec's version, for comparison with the source's `headerLine`. -/
def headerLineCI (line : String) : Bool :=
  isInfixB "email".data (toLowerStr line).data
    && isInfixB "duration".data (toLowerStr line).data
    && isInfixB "name".data (toLowerStr line).data

/-- The header scan (dashboard.py:76-84): index of the first line passing
`headerLine`; `none` makes the loader fail with its header-not-found
error. -/
def findHeaderIdx : List String → Option ℕ
  | [] => none
  | l :: rest => if headerLine l then some 0 else (findHeaderIdx rest).map (fun i => i + 1)

/-- Claim C9, amended: the loader starts tabular parsing at the first line
that contains the substrings `Email`, `Duration` and `Name`
*case-sensitively* (not case-insensitively as claimed), and fails if and
only if no such line exists; the spec's banner scenario, whose header row
is title-cased, is still located at index 3. -/
theorem claim9_header_detection (lines : List String) :
    (findHeaderIdx lines = none ↔ ∀ l ∈ lines, headerLine l = false) ∧
    (∀ i, findHeaderIdx lines = some i →
      i < lines.length ∧ headerLine (lines.getD i "") = true ∧
      ∀ j, j < i → headerLine (lines.getD j "") = false) ∧
    findHeaderIdx ["Banner line one", "Banner line two", "Banner line three",
      "Name, Email, Duration (Minutes)", "Alice,alice@x.com,45"] = some 3 := by
  refine ⟨?_, ?_, by decide⟩
  · induction lines with
    | nil => simp [findHeaderIdx]
    | cons l rest ih =>
      rw [findHeaderIdx]
      by_cases hl : headerLine l = true
      · rw [if_pos hl]
        simp [hl]
      · rw [if_neg hl]
        constructor
        · intro hnone
          intro x hx
          rcases List.mem_cons.mp hx with hx | hx
          · rw [hx]
            simpa using hl
          · rcases hfi : findHeaderIdx rest with - | i
            · exact (ih.mp hfi) x hx
            · rw [hfi] at hnone
              simp at hnone
        · intro hall
          have : findHeaderIdx rest = none :=
            ih.mpr (fun x hx => hall x (List.mem_cons_of_mem l hx))
          rw [this]
          rfl
  · induction lines with
    | nil => intro i hi; simp [findHeaderIdx] at hi
    | cons l rest ih =>
      intro i hi
      rw [findHeaderIdx] at hi
      by_cases hl : headerLine l = true
      · rw [if_pos hl] at hi
        have hi0 : i = 0 := by simpa using hi.symm
        subst hi0
        refine ⟨by simp, by simpa using hl, ?_⟩
        intro j hj
        omega
      · rw [if_neg hl] at hi
        rcases hfi : findHeaderIdx rest with - | i₀
        · rw [hfi] at hi
          simp at hi
        · rw [hfi] at hi
          have hi' : i = i₀ + 1 := by simpa using hi.symm
          obtain ⟨hlen, hhead, hprev⟩ := ih i₀ hfi
          subst hi'
          refine ⟨by simpa using Nat.succ_lt_succ hlen, by simpa using hhead, ?_⟩
          intro j hj
          cases j with
          | zero => simpa using hl
          | succ j' =>
            have : j' < i₀ := by omega
            simpa using hprev j' this

/-- Claim C9 witness: the theorem's characterization discharged on the
spec's banner scenario — the title-cased header is found at index 3. -/
theorem claim9_header_detection_witness :
    findHeaderIdx ["Banner line one", "Banner line two", "Banner line three",
      "Name, Email, Duration (Minutes)", "Alice,alice@x.com,45"] = some 3 ∧
    headerLine (["Banner line one", "Banner line two", "Banner line three",
      "Name, Email, Duration (Minutes)", "Alice,alice@x.com,45"].getD 3 "") = true := by
  have h := claim9_header_detection ["Banner line one", "Banner line two",
    "Banner line three", "Name, Email, Duration (Minutes)", "Alice,alice@x.com,45"]
  exact ⟨h.2.2, (h.2.1 3 h.2.2).2.1⟩

/-- Claim C9 counterexample: a lower-cased export header contains the
email/duration/name substrings case-insensitively — so per the claim the
loader must start parsing at index 1 — yet the code's case-sensitive scan
finds no header and fails. -/
theorem claim9_counterexample :
    headerLineCI "name,email,duration (minutes)" = true ∧
    findHeaderIdx ["Export banner", "name,email,duration (minutes)"] = none := by
  constructor
  · decide
  · decide

/-- One row of the critical-moments frame: `(minute, drop, percentage)`
(dashboard.py:386-387, masterclass_analyzer.py:531-532). -/
structure DropRow where
  minute : ℕ
  drop : ℚ
  percentage : ℚ
deriving DecidableEq

/-- The tail of `diff().fillna(0).abs()`: each row's drop is the absolute
difference between its key value and the previous row's. -/
def dropsAux (key : TimelineRow → ℚ) (prev : ℚ) : List TimelineRow → List DropRow
  | [] => []
  | t :: rest => ⟨t.minute, |key t - prev|, t.percentage⟩ :: dropsAux key (key t) rest

/-- `timeline['drop'] = timeline[key].diff().fillna(0).abs()`: the first
row's NaN diff is filled with 0. -/
def withDrops (key : TimelineRow → ℚ) : List TimelineRow → List DropRow
  | [] => []
  | t :: rest => ⟨t.minute, 0, t.percentage⟩ :: dropsAux key (key t) rest

/-- Pair each element with its positional index (the pandas row index that
`nlargest` keep='first' breaks ties by). -/
def withIdx {α : Type} : ℕ → List α → List (ℕ × α)
  | _, [] => []
  | n, a :: l => (n, a) :: withIdx (n + 1) l

/-- The ordering used by `nlargest(k, 'drop')` with keep='first': larger
drop first, ties by smaller original index. -/
def pairRel (a b : ℕ × DropRow) : Prop :=
  b.2.drop < a.2.drop ∨ (a.2.drop = b.2.drop ∧ a.1 ≤ b.1)

instance : DecidableRel pairRel := fun a b =>
  decidable_of_iff (b.2.drop < a.2.drop ∨ (a.2.drop = b.2.drop ∧ a.1 ≤ b.1)) Iff.rfl

instance : IsTotal (ℕ × DropRow) pairRel where
  total a b := by
    unfold pairRel
    rcases lt_trichotomy a.2.drop b.2.drop with h | h | h
    · right; left; exact h
    · rcases Nat.le_total a.1 b.1 with h1 | h1
      · left; right; exact ⟨h, h1⟩
      · right; right; exact ⟨h.symm, h1⟩
    · left; left; exact h

instance : IsTrans (ℕ × DropRow) pairRel where
  trans a b c hab hbc := by
    unfold pairRel at hab hbc ⊢
    rcases hab with hab | ⟨hab, hab'⟩ <;> rcases hbc with hbc | ⟨hbc, hbc'⟩
    · left; exact lt_trans hbc hab
    · left; rw [← hbc]; exact hab
    · left; rw [hab]; exact hbc
    · right; exact ⟨hab.trans hbc, le_trans hab' hbc'⟩

/-- pandas `nlargest(k, 'drop')` (default keep='first'): the first `k` rows
of the stable descending sort by drop — stability realized by sorting the
index-tagged rows. -/
def nlargestDrop (k : ℕ) (l : List DropRow) : List DropRow :=
  ((List.insertionSort pairRel (withIdx 0 l)).take k).map (fun p => p.2)

/-- Critical drop-off moments of the analyzer script
(masterclass_analyzer.py:531-532): top 3 by absolute difference of
consecutive *rounded percentages*. -/
def criticalAnalyzer (tl : List TimelineRow) : List DropRow :=
  nlargestDrop 3 (withDrops (fun t => t.percentage) tl)

/-- Critical drop-off moments of the dashboard (dashboard.py:386-387):
top 5 by absolute difference of consecutive *attendee counts*. -/
def criticalDashboard (tl : List TimelineRow) : List DropRow :=
  nlargestDrop 5 (withDrops (fun t => (t.attendees : ℚ)) tl)

/-- Modelled from the spec: the spec's words rank the dashboard's K = 5
moments by the absolute difference in *percentage* between consecutive
samples; this definition follows those words, for comparison with the
source's `criticalDashboard`. -/
def specCriticalDashboard (tl : List TimelineRow) : List DropRow :=
  nlargestDrop 5 (withDrops (fun t => t.percentage) tl)

/-- The ranking the claim describes on the reported rows themselves:
larger drop first, ties by ascending minute. -/
def dropMinRel (a b : DropRow) : Prop :=
  b.drop < a.drop ∨ (a.drop = b.drop ∧ a.minute ≤ b.minute)

/-- Stripping the indices recovers the original list. -/
theorem withIdx_map_snd {α : Type} : ∀ (n : ℕ) (l : List α),
    (withIdx n l).map (fun p => p.2) = l
  | _, [] => rfl
  | n, a :: l => by
    rw [withIdx, List.map_cons, withIdx_map_snd (n + 1) l]

/-- Indices assigned by `withIdx` start at `n`. -/
theorem withIdx_fst_ge {α : Type} : ∀ (n : ℕ) (l : List α) (p : ℕ × α),
    p ∈ withIdx n l → n ≤ p.1
  | _, [], p => by simp [withIdx]
  | n, a :: l, p => by
    intro hp
    rw [withIdx] at hp
    rcases List.mem_cons.mp hp with hp | hp
    · rw [hp]
    · exact le_trans (Nat.le_succ n) (withIdx_fst_ge (n + 1) l p hp)

/-- A tagged element belongs to the original list. -/
theorem withIdx_snd_mem {α : Type} : ∀ (n : ℕ) (l : List α) (p : ℕ × α),
    p ∈ withIdx n l → p.2 ∈ l
  | _, [], p => by simp [withIdx]
  | n, a :: l, p => by
    intro hp
    rw [withIdx] at hp
    rcases List.mem_cons.mp hp with hp | hp
    · rw [hp]; exact List.mem_cons_self a l
    · exact List.mem_cons_of_mem a (withIdx_snd_mem (n + 1) l p hp)

/-- When the rows' minutes strictly increase in list order, index order
agrees with minute order on the tagged rows. -/
theorem withIdx_minute_le {l : List DropRow}
    (hl : l.Pairwise (fun a b => a.minute < b.minute)) :
    ∀ (n : ℕ) (p q : ℕ × DropRow), p ∈ withIdx n l → q ∈ withIdx n l →
      p.1 ≤ q.1 → p.2.minute ≤ q.2.minute := by
  induction l with
  | nil => intro n p q hp; simp [withIdx] at hp
  | cons a l ih =>
    intro n p q hp hq hpq
    rw [withIdx] at hp hq
    rw [List.pairwise_cons] at hl
    rcases List.mem_cons.mp hp with hp | hp <;> rcases List.mem_cons.mp hq with hq | hq
    · rw [hp, hq]
    · rw [hp]
      exact le_of_lt (hl.1 q.2 (withIdx_snd_mem (n + 1) l q hq))
    · exfalso
      have h1 : n + 1 ≤ p.1 := withIdx_fst_ge (n + 1) l p hp
      rw [hq] at hpq
      omega
    · exact ih hl.2 (n + 1) p q hp hq hpq

/-- Selection correctness of the embedded `nlargest`: on a frame whose
minutes strictly increase, it returns the first `k` rows of some
arrangement of the frame sorted by descending drop with ties in ascending
minute order. -/
theorem nlargestDrop_sorted {l : List DropRow}
    (hl : l.Pairwise (fun a b => a.minute < b.minute)) (k : ℕ) :
    ∃ l', l.Perm l' ∧ l'.Sorted dropMinRel ∧ nlargestDrop k l = l'.take k := by
  refine ⟨(List.insertionSort pairRel (withIdx 0 l)).map (fun p => p.2), ?_, ?_, ?_⟩
  · have hperm := List.perm_insertionSort pairRel (withIdx 0 l)
    have := hperm.map (fun p : ℕ × DropRow => p.2)
    rw [withIdx_map_snd] at this
    exact this.symm
  · have hs : (List.insertionSort pairRel (withIdx 0 l)).Pairwise pairRel :=
      List.sorted_insertionSort pairRel (withIdx 0 l)
    rw [List.Sorted, List.pairwise_map]
    apply List.Pairwise.imp_of_mem ?_ hs
    intro p q hp hq hpq
    have hp' : p ∈ withIdx 0 l :=
      (List.perm_insertionSort pairRel (withIdx 0 l)).mem_iff.mp hp
    have hq' : q ∈ withIdx 0 l :=
      (List.perm_insertionSort pairRel (withIdx 0 l)).mem_iff.mp hq
    rcases hpq with hlt | ⟨heq, hle⟩
    · left; exact hlt
    · right
      exact ⟨heq, withIdx_minute_le hl 0 p q hp' hq' hle⟩
  · unfold nlargestDrop
    rw [List.map_take]

/-- The drop frame keeps the timeline's minutes. -/
theorem withDrops_map_minute (key : TimelineRow → ℚ) : ∀ (tl : List TimelineRow),
    (withDrops key tl).map (fun r => r.minute) = tl.map (fun t => t.minute) := by
  have haux : ∀ (prev : ℚ) (tl : List TimelineRow),
      (dropsAux key prev tl).map (fun r => r.minute) = tl.map (fun t => t.minute) := by
    intro prev tl
    induction tl generalizing prev with
    | nil => rfl
    | cons t rest ih => rw [dropsAux, List.map_cons, List.map_cons, ih]
  intro tl
  cases tl with
  | nil => rfl
  | cons t rest => rw [withDrops, List.map_cons, List.map_cons, haux]

/-- Strictly increasing minutes carry over from the timeline to its drop
frame. -/
theorem withDrops_minute_mono (key : TimelineRow → ℚ) {tl : List TimelineRow}
    (hmono : tl.Pairwise (fun a b => a.minute < b.minute)) :
    (withDrops key tl).Pairwise (fun a b => a.minute < b.minute) := by
  have h1 : (tl.map (fun t => t.minute)).Pairwise (fun a b => a < b) :=
    List.pairwise_map.mpr hmono
  rw [← withDrops_map_minute key tl] at h1
  exact List.pairwise_map.mp h1

/-- Claim C8, amended: on every computed timeline (sample minutes strictly
increase), both critical-moment reports are the top-K rows of the drop
frame ranked by descending drop with ties broken by ascending minute —
but the ranking keys differ from the claim: the analyzer script ranks the
absolute differences of consecutive *rounded percentages* with K = 3,
while the dashboard ranks the absolute differences of consecutive
*attendee counts* with K = 5, not percentage differences. -/
theorem claim8_critical_dropoffs (tl : List TimelineRow)
    (hmono : tl.Pairwise (fun a b => a.minute < b.minute)) :
    (∃ l', (withDrops (fun t => t.percentage) tl).Perm l' ∧ l'.Sorted dropMinRel ∧
      criticalAnalyzer tl = l'.take 3) ∧
    (∃ l', (withDrops (fun t => (t.attendees : ℚ)) tl).Perm l' ∧ l'.Sorted dropMinRel ∧
      criticalDashboard tl = l'.take 5) :=
  ⟨nlargestDrop_sorted (withDrops_minute_mono _ hmono) 3,
   nlargestDrop_sorted (withDrops_minute_mono _ hmono) 5⟩

/-- Claim C8 witness: the amended statement at a concrete three-sample
timeline. -/
theorem claim8_critical_dropoffs_witness :
    ([⟨0, 3, 100⟩, ⟨10, 2, 67⟩, ⟨20, 2, 67⟩] : List TimelineRow).Pairwise
      (fun a b => a.minute < b.minute) ∧
    ((∃ l', (withDrops (fun t => t.percentage)
        [⟨0, 3, 100⟩, ⟨10, 2, 67⟩, ⟨20, 2, 67⟩]).Perm l' ∧ l'.Sorted dropMinRel ∧
      criticalAnalyzer [⟨0, 3, 100⟩, ⟨10, 2, 67⟩, ⟨20, 2, 67⟩] = l'.take 3) ∧
    (∃ l', (withDrops (fun t => (t.attendees : ℚ))
        [⟨0, 3, 100⟩, ⟨10, 2, 67⟩, ⟨20, 2, 67⟩]).Perm l' ∧ l'.Sorted dropMinRel ∧
      criticalDashboard [⟨0, 3, 100⟩, ⟨10, 2, 67⟩, ⟨20, 2, 67⟩] = l'.take 5)) :=
  ⟨by decide, claim8_critical_dropoffs _ (by decide)⟩

/-- Claim C8 counterexample: the claim says the top-K samples are ranked by
the absolute difference in percentage; on a concrete computed-shape
timeline the dashboard instead reports attendee-count differences — its
first critical moment carries drop 1 (one attendee lost) where the
percentage difference is 33 — so its report differs from the
percentage-ranked one the claim describes. -/
theorem claim8_counterexample :
    criticalDashboard [⟨0, 3, 100⟩, ⟨10, 2, 67⟩, ⟨20, 2, 67⟩]
      = [⟨10, 1, 67⟩, ⟨0, 0, 100⟩, ⟨20, 0, 67⟩] ∧
    specCriticalDashboard [⟨0, 3, 100⟩, ⟨10, 2, 67⟩, ⟨20, 2, 67⟩]
      = [⟨10, 33, 67⟩, ⟨0, 0, 100⟩, ⟨20, 0, 67⟩] ∧
    criticalDashboard [⟨0, 3, 100⟩, ⟨10, 2, 67⟩, ⟨20, 2, 67⟩]
      ≠ specCriticalDashboard [⟨0, 3, 100⟩, ⟨10, 2, 67⟩, ⟨20, 2, 67⟩] := by
  have h1 : withDrops (fun t => (t.attendees : ℚ)) [⟨0, 3, 100⟩, ⟨10, 2, 67⟩, ⟨20, 2, 67⟩]
      = [⟨0, 0, 100⟩, ⟨10, 1, 67⟩, ⟨20, 0, 67⟩] := by
    norm_num [withDrops, dropsAux]
  have h2 : withDrops (fun t => t.percentage) [⟨0, 3, 100⟩, ⟨10, 2, 67⟩, ⟨20, 2, 67⟩]
      = [⟨0, 0, 100⟩, ⟨10, 33, 67⟩, ⟨20, 0, 67⟩] := by
    norm_num [withDrops, dropsAux]
  refine ⟨?_, ?_, ?_⟩
  · unfold criticalDashboard
    rw [h1]
    decide
  · unfold specCriticalDashboard
    rw [h2]
    decide
  · unfold criticalDashboard specCriticalDashboard
    rw [h1, h2]
    decide
